import Mathlib

/-!
Verification of `tensorflow_addons/optimizers/average_wrapper.py`
(`AveragedOptimizerWrapper`), a decorator-style wrapper around a Keras
optimizer that maintains an "average" slot per trainable variable.

The embedding models:
* TensorFlow graph construction as explicit state passing over a `Graph`
  of operation nodes carrying control-dependency edges
  (`tf.control_dependencies`, `tf.group`);
* Python dynamic values for the construction-time `isinstance` checks;
* the optimizer's slot table, variable values and iteration counters as an
  explicit `OptState`;
* Keras config dictionaries as association lists with rightmost-wins
  lookup (the semantics of `dict(list(a.items()) + list(b.items()))`)
  and `dict.pop`.

External collaborators (`tf.keras.optimizers.Optimizer`, the optimizer
registry, `add_slot`) are modelled by their documented interface, which the
wrapper relies on; all wrapper code is translated directly from the source.
-/

namespace AverageWrapper

/-! ## Graph model: deferred operations with control dependencies -/

/-- An operation node in the data-flow graph: an identifier and the list of
operation ids it is control-dependent on (it may not start before these
complete). -/
structure Op where
  id : Nat
  deps : List Nat
  deriving DecidableEq, Repr

/-- Graph-construction state: the next fresh operation id, the operations
constructed so far, and the ambient control-dependency context
(`tf.control_dependencies` scopes currently open). -/
structure Graph where
  nextId : Nat
  ops : List Op
  ctx : List Nat
  deriving DecidableEq, Repr

/-- The empty graph. -/
def Graph.empty : Graph := ⟨0, [], []⟩

/-- Construct a fresh operation; it picks up the ambient control-dependency
context, as every op constructed inside a `tf.control_dependencies` scope
does. -/
def mkOp (g : Graph) : Nat × Graph :=
  (g.nextId, ⟨g.nextId + 1, g.ops ++ [⟨g.nextId, g.ctx⟩], g.ctx⟩)

/-- `tf.group(inputs)`: an operation that completes only after every input
operation completes (modelled as control dependencies on the inputs, plus
the ambient context). -/
def groupOp (inputs : List Nat) (g : Graph) : Nat × Graph :=
  (g.nextId, ⟨g.nextId + 1, g.ops ++ [⟨g.nextId, g.ctx ++ inputs⟩], g.ctx⟩)

/-- `with tf.control_dependencies(extra): body` — run a graph-constructing
body with the context extended by `extra`, restoring the context after. -/
def withControlDependencies (extra : List Nat) (body : Graph → Nat × Graph)
    (g : Graph) : Nat × Graph :=
  let r := body ⟨g.nextId, g.ops, g.ctx ++ extra⟩
  (r.1, ⟨r.2.nextId, r.2.ops, g.ctx⟩)

/-- The abstract `average_op(var, average_var)` supplied by a subclass: it
constructs the averaging-rule update operation in the ambient scope. The
rule itself is out of scope; only the operation it constructs matters. -/
def average_op (g : Graph) : Nat × Graph := mkOp g

/-- The base optimizer's `_resource_apply_dense`: constructs the train
update operation (modelled as a single joinable operation). -/
def base_resource_apply_dense (g : Graph) : Nat × Graph := mkOp g

/-- The base optimizer's `_resource_apply_sparse`. -/
def base_resource_apply_sparse (g : Graph) : Nat × Graph := mkOp g

/-- The base optimizer's `_resource_apply_sparse_duplicate_indices`. -/
def base_resource_apply_sparse_duplicate_indices (g : Graph) : Nat × Graph :=
  mkOp g

/-- `_apply_average_op(self, train_op, var)` from the source: under
`sequential_update` the average op is constructed inside
`tf.control_dependencies([train_op])`; otherwise it is constructed with no
added ordering. -/
def apply_average_op (sequential_update : Bool) (train_op : Nat)
    (g : Graph) : Nat × Graph :=
  if sequential_update then
    withControlDependencies [train_op] average_op g
  else
    average_op g

/-- `_resource_apply_dense(self, grad, var)` from the source: base train op,
then the average op, then `tf.group(train_op, average_op)`. -/
def resource_apply_dense (sequential_update : Bool) (g : Graph) :
    Nat × Graph :=
  let t := base_resource_apply_dense g
  let a := apply_average_op sequential_update t.1 t.2
  groupOp [t.1, a.1] a.2

/-- `_resource_apply_sparse(self, grad, var, indices)` from the source. -/
def resource_apply_sparse (sequential_update : Bool) (g : Graph) :
    Nat × Graph :=
  let t := base_resource_apply_sparse g
  let a := apply_average_op sequential_update t.1 t.2
  groupOp [t.1, a.1] a.2

/-- `_resource_apply_sparse_duplicate_indices(self, grad, var, indices)`
from the source. -/
def resource_apply_sparse_duplicate_indices (sequential_update : Bool)
    (g : Graph) : Nat × Graph :=
  let t := base_resource_apply_sparse_duplicate_indices g
  let a := apply_average_op sequential_update t.1 t.2
  groupOp [t.1, a.1] a.2

/-- The control dependencies declared on operation `i` in graph `g`
(empty if `i` is not an operation of `g`). -/
def depsOf (g : Graph) (i : Nat) : List Nat :=
  ((g.ops.find? (fun op => op.id = i)).map Op.deps).getD []

/-- A graph is well formed when every constructed op id and every id in the
ambient context is below the fresh-id counter. -/
def Graph.WF (g : Graph) : Prop :=
  (∀ op ∈ g.ops, op.id < g.nextId) ∧ (∀ i ∈ g.ctx, i < g.nextId)

instance (g : Graph) : Decidable g.WF := by
  unfold Graph.WF
  exact instDecidableAnd

/-! ## Construction: dynamic type checks of `__init__` -/

/-- Serialized configuration of a base optimizer, as handed around by
`tf.keras.optimizers.serialize` / `deserialize` (a class name plus the
class-specific fields; their exact shape is irrelevant here). -/
structure OptConfig where
  class_name : String
  params : List (String × Int)
  deriving DecidableEq, Repr

/-- A base optimizer instance: an object of `tf.keras.optimizers.Optimizer`,
identified for our purposes by its serializable configuration. -/
structure BaseOptimizer where
  cfg : OptConfig
  deriving DecidableEq, Repr

/-- The optimizer registry consulted by `tf.keras.optimizers.get` when the
argument is a string identifier. -/
def Registry := List (String × BaseOptimizer)

/-- A Python value passed for the `sequential_update` keyword: the
`isinstance(·, bool)` check distinguishes booleans from everything else
(in particular the integer `1` is not a `bool`). -/
inductive PyVal where
  | pybool (b : Bool)
  | pyint (n : Int)
  | pystr (s : String)
  | pynone
  deriving DecidableEq, Repr

/-- A Python value passed for the `optimizer` argument: an optimizer
instance, a string identifier, or some other object. -/
inductive OptimizerArg where
  | inst (o : BaseOptimizer)
  | name (s : String)
  | other (v : PyVal)
  deriving DecidableEq, Repr

/-- Errors raised during construction: the two `TypeError`s raised by
`__init__` itself, and the lookup error raised by the registry
(`tf.keras.optimizers.get`) on an unknown identifier. -/
inductive ConstructError where
  | typeError (msg : String)
  | registryLookupError (s : String)
  deriving DecidableEq, Repr

/-- `tf.keras.optimizers.get(s)`: resolve a string through the optimizer
registry; unknown identifiers raise a lookup error. -/
def keras_optimizers_get (reg : Registry) (s : String) :
    Except ConstructError BaseOptimizer :=
  match List.lookup s reg with
  | some o => Except.ok o
  | none => Except.error (ConstructError.registryLookupError s)

/-- The state stored by a constructed wrapper: `self._optimizer` and
`self._sequential_update` (lines 45-46 of the source). -/
structure Wrapper where
  optimizer : BaseOptimizer
  sequential_update : Bool
  deriving DecidableEq, Repr

/-- `AveragedOptimizerWrapper.__init__`, translated from the source:
resolve a string through the registry, check the result is an `Optimizer`
instance, check `sequential_update` is a `bool`, then store both. A raise
leaves no object constructed (`Except.error`). -/
def averaged_init (reg : Registry) (optimizer : OptimizerArg)
    (sequential_update : PyVal) : Except ConstructError Wrapper := do
  let opt : BaseOptimizer ←
    match optimizer with
    | OptimizerArg.name s => keras_optimizers_get reg s
    | OptimizerArg.inst o => Except.ok o
    | OptimizerArg.other _ =>
        Except.error (ConstructError.typeError
          "optimizer is not an object of tf.keras.optimizers.Optimizer")
  match sequential_update with
  | PyVal.pybool b => Except.ok ⟨opt, b⟩
  | _ =>
      Except.error (ConstructError.typeError
        "sequential_update must be of bool type")

/-! ## Optimizer state: slots, variable values, iteration counters -/

/-- A model variable: identity, shape, dtype, trainability. -/
structure VarInfo where
  id : Nat
  shape : List Nat
  dtype : String
  trainable : Bool
  deriving DecidableEq, Repr

/-- A slot variable: auxiliary storage keyed by (variable id, slot name),
with its own shape, dtype and current contents. -/
structure Slot where
  varId : Nat
  slotName : String
  shape : List Nat
  dtype : String
  value : Int
  deriving DecidableEq, Repr

/-- Mutable optimizer state: the slot table, the live variable values, the
wrapper's iteration counter, the base optimizer's own iteration-counter
variable, whether line 60 has rebound the base optimizer's `_iterations`
field to the wrapper's counter variable, and a log of the variable lists
passed to the base optimizer's `_create_slots`. -/
structure OptState where
  slots : List Slot
  varValues : List (Nat × Int)
  iterations : Nat
  baseIterVar : Nat
  baseAliased : Bool
  baseCreateSlotsLog : List (List VarInfo)
  deriving DecidableEq, Repr

/-- Read a live variable value (0 for an unknown id, the model's default). -/
def readVar (s : OptState) (i : Nat) : Int :=
  (List.lookup i s.varValues).getD 0

/-- `var.assign(v)`: overwrite a live variable value. -/
def writeVar (s : OptState) (i : Nat) (v : Int) : OptState :=
  { s with varValues := (i, v) :: s.varValues.filter (fun p => ¬(p.1 = i)) }

/-- `self.get_slot(var, name)`: the slot keyed by (variable, name), if any. -/
def get_slot (s : OptState) (var : VarInfo) (slot_name : String) :
    Option Slot :=
  s.slots.find? (fun sl => sl.varId = var.id ∧ sl.slotName = slot_name)

/-- `self.add_slot(var, name)`, the Keras slot-creation primitive the
wrapper relies on: create the slot with the variable's shape and dtype if
it does not exist yet, otherwise leave the existing slot untouched
(idempotent per variable, per the base class contract). -/
def add_slot (s : OptState) (var : VarInfo) (slot_name : String) :
    OptState :=
  match get_slot s var slot_name with
  | some _ => s
  | none =>
      { s with
        slots := s.slots ++ [⟨var.id, slot_name, var.shape, var.dtype, 0⟩] }

/-- The base optimizer's `_create_slots(var_list)`: its internal slots are
opaque; the call itself is logged so delegation is observable. -/
def base_create_slots (s : OptState) (var_list : List VarInfo) : OptState :=
  { s with baseCreateSlotsLog := var_list :: s.baseCreateSlotsLog }

/-- `_create_slots(self, var_list)` from the source: delegate to the base
optimizer for the same list, then `add_slot(var, 'average')` per variable. -/
def create_slots (s : OptState) (var_list : List VarInfo) : OptState :=
  var_list.foldl (fun st var => add_slot st var "average")
    (base_create_slots s var_list)

/-- The value read for the base optimizer's iteration counter: after
line 60 the field is an alias of the wrapper's counter variable. -/
def baseIterations (s : OptState) : Nat :=
  if s.baseAliased then s.iterations else s.baseIterVar

/-- Line 60 of the source, `self._optimizer._iterations = self.iterations`:
rebinds the base optimizer's counter field to the wrapper's counter
variable. -/
def copy_iterations (s : OptState) : OptState :=
  { s with baseAliased := true }

/-- The superclass `apply_gradients` control flow, as far as counters go:
apply the updates and increment the wrapper's iteration counter once. -/
def super_apply_gradients (s : OptState) : OptState :=
  { s with iterations := s.iterations + 1 }

/-- `apply_gradients(self, grads_and_vars, name)` from the source: first
line 60, then delegate to the superclass. -/
def apply_gradients (s : OptState) : OptState :=
  super_apply_gradients (copy_iterations s)

/-- The optimizer state right after construction: no slots yet, both
iteration counters freshly initialized to zero, not yet aliased. -/
def initState : OptState := ⟨[], [], 0, 0, false, []⟩

/-- `assign_average_vars(self, var_list)` from the source: one
`var.assign(self.get_slot(var, 'average'))` per trainable variable in the
list (non-trainable ones are skipped by the comprehension filter, and their
slots are never read), all grouped; returns the ids of the variables whose
assign ops were grouped, together with the updated state. Reading a missing
slot raises. -/
def assign_average_vars (s : OptState) (var_list : List VarInfo) :
    Except String (OptState × List Nat) :=
  match var_list with
  | [] => Except.ok (s, [])
  | var :: rest =>
      if var.trainable then
        match get_slot s var "average" with
        | none => Except.error "KeyError: average slot"
        | some sl =>
            match assign_average_vars (writeVar s var.id sl.value) rest with
            | Except.error e => Except.error e
            | Except.ok r => Except.ok (r.1, var.id :: r.2)
      else
        assign_average_vars s rest

/-! ## Configuration serialization: `get_config` / `from_config` -/

/-- A value stored in a Keras config mapping. -/
inductive CVal where
  | cbool (b : Bool)
  | cint (n : Int)
  | cstr (s : String)
  | ccfg (c : OptConfig)
  deriving DecidableEq, Repr

/-- A config mapping, as the item list of a Python dict. Reading uses
rightmost-wins lookup so that `dict(list(a.items()) + list(b.items()))`
is modelled by plain list append. -/
abbrev Dict := List (String × CVal)

/-- Dict lookup: the rightmost binding of a key wins, matching the
semantics of a dict built from a concatenated item list. -/
def dget (d : Dict) (k : String) : Option CVal :=
  match d with
  | [] => none
  | (k', v) :: rest =>
      match dget rest k with
      | some v' => some v'
      | none => if k' = k then some v else none

/-- `d.pop(k)`: the value bound to `k` together with the mapping with `k`
removed; `none` when the key is absent (Python raises `KeyError`). -/
def dpop (d : Dict) (k : String) : Option (CVal × Dict) :=
  match dget d k with
  | some v =>
      some (v, List.filter (fun p : String × CVal => ¬(p.1 = k)) d)
  | none => none

/-- `tf.keras.optimizers.serialize(opt)`: the optimizer's serializable
configuration. -/
def keras_serialize (o : BaseOptimizer) : OptConfig := o.cfg

/-- `tf.keras.optimizers.deserialize(cfg)`: reconstruct an optimizer from
its configuration through the registry/factory. -/
def keras_deserialize (c : OptConfig) : BaseOptimizer := ⟨c⟩

/-- `get_config(self)` from the source: the wrapper's two fields, merged
with the superclass configuration (`dict(list(base_config.items()) +
list(config.items()))`, so the wrapper's entries come last and win). The
superclass configuration `base_config` (name, hyperparameters) is supplied
by the external base class. -/
def get_config (w : Wrapper) (base_config : Dict) : Dict :=
  base_config ++
    [("optimizer", CVal.ccfg (keras_serialize w.optimizer)),
     ("sequential_update", CVal.cbool w.sequential_update)]

/-- `from_config(cls, config, custom_objects)` from the source: pop the
nested optimizer configuration out of the caller's mapping (mutating it),
deserialize it, then construct `cls(optimizer, **config)` — the remaining
`sequential_update` binding feeds the constructor's keyword (defaulting to
`True` when absent) and passes the constructor's `bool` check. Returns the
wrapper together with the caller's mapping as the call leaves it. -/
def from_config (config : Dict) : Except String (Wrapper × Dict) :=
  match dpop config "optimizer" with
  | none => Except.error "KeyError: optimizer"
  | some (v, rest) =>
      match v with
      | CVal.ccfg c =>
          let opt := keras_deserialize c
          match dget rest "sequential_update" with
          | some (CVal.cbool b) => Except.ok (⟨opt, b⟩, rest)
          | some _ =>
              Except.error "TypeError: sequential_update must be of bool type"
          | none => Except.ok (⟨opt, true⟩, rest)
      | _ => Except.error "ValueError: could not deserialize optimizer"

/-- The `weights` property from the source: the wrapper's own weight list
(`self._weights`: iteration counter and the slots it created) concatenated
with the base optimizer's weight list, wrapper's own first. -/
def weights {α : Type} (ownWeights baseWeights : List α) : List α :=
  ownWeights ++ baseWeights

/-- The ordering contract shared by the three gradient-application entry
points: from any well-formed graph, the base optimizer's train update is
constructed as operation `g.nextId`, the average update as operation
`g.nextId + 1`, and the returned value `g.nextId + 2` is the group of the
two; with `sequential_update` the average update carries a control
dependency on the train update, without it it carries none. -/
def OrderingSpec (F : Bool → Graph → Nat × Graph) : Prop :=
  ∀ (su : Bool) (g : Graph), g.WF →
    ((F su g).1 = g.nextId + 2 ∧
     (su = true → g.nextId ∈ depsOf (F su g).2 (g.nextId + 1)) ∧
     (su = false → g.nextId ∉ depsOf (F su g).2 (g.nextId + 1)) ∧
     g.nextId ∈ depsOf (F su g).2 (F su g).1 ∧
     g.nextId + 1 ∈ depsOf (F su g).2 (F su g).1)

/-- The graph produced by one dense/sparse apply call, in closed form. -/
def applyShape (su : Bool) (g : Graph) : Nat × Graph :=
  (g.nextId + 2,
    ⟨g.nextId + 3,
      g.ops ++ [⟨g.nextId, g.ctx⟩] ++
        [⟨g.nextId + 1, if su then g.ctx ++ [g.nextId] else g.ctx⟩] ++
        [⟨g.nextId + 2, g.ctx ++ [g.nextId, g.nextId + 1]⟩],
      g.ctx⟩)

/-! ## Theorems -/

/-- C7: constructing the wrapper from a valid optimizer instance `O` and a
boolean flag `s` succeeds and stores exactly `O` as the nested base
optimizer and `s` as the `sequential_update` flag, both unchanged. -/
theorem C7_construct_stores (reg : Registry) (O : BaseOptimizer) (s : Bool) :
    averaged_init reg (OptimizerArg.inst O) (PyVal.pybool s) =
      Except.ok ⟨O, s⟩ := rfl

/-- C8: the `weights` property returns the wrapper's own auxiliary weights
followed by the base optimizer's weights: the combined list has the total
length, agrees with the wrapper's own list on the first indices, and agrees
with the base optimizer's list on the remaining indices, so every own
weight precedes every base weight. -/
theorem C8_weights_order {α : Type} (own base : List α) :
    (weights own base).length = own.length + base.length ∧
    (∀ i, i < own.length → (weights own base)[i]? = own[i]?) ∧
    (∀ j, j < base.length →
      (weights own base)[own.length + j]? = base[j]?) := by
  refine ⟨List.length_append own base, fun i hi => ?_, fun j hj => ?_⟩
  · exact List.getElem?_append_left hi
  · show (own ++ base)[own.length + j]? = base[j]?
    rw [List.getElem?_append_right (Nat.le_add_right _ _)]
    simp

/-- Witness for C8 at concrete lists. -/
theorem C8_weights_order_witness :
    (weights [10, 20] [30] : List Int)[1]? = ([10, 20] : List Int)[1]? ∧
    (weights [10, 20] [30] : List Int)[2 + 0]? = ([30] : List Int)[0]? :=
  ⟨(C8_weights_order [10, 20] [30]).2.1 1 (by decide),
   (C8_weights_order [10, 20] [30]).2.2 0 (by decide)⟩

/-- C3: `apply_gradients` rebinds the base optimizer's iteration-counter
field to the wrapper's own counter before delegating (line 60), so the two
counters read equal immediately after the copy, immediately after every
`apply_gradients` call from any state, and both immediately before and
immediately after every call along any trace of calls from the freshly
constructed state. -/
theorem C3_iterations_equal :
    (∀ s : OptState,
      baseIterations (copy_iterations s) = (copy_iterations s).iterations) ∧
    (∀ s : OptState,
      baseIterations (apply_gradients s) = (apply_gradients s).iterations) ∧
    (∀ n : Nat,
      baseIterations (apply_gradients^[n] initState) =
        (apply_gradients^[n] initState).iterations) := by
  refine ⟨fun s => rfl, fun s => rfl, fun n => ?_⟩
  cases n with
  | zero => rfl
  | succ m => rw [Function.iterate_succ_apply']; rfl

/-- C10: `assign_average_vars` on a list with no trainable variable (in
particular the empty list) reads no average slot (it succeeds even when the
slot table is empty), modifies nothing, raises nothing, and returns the
empty group of assignments. -/
theorem C10_assign_no_trainable (s : OptState) (V : List VarInfo)
    (h : ∀ v ∈ V, v.trainable = false) :
    assign_average_vars s V = Except.ok (s, []) := by
  induction V with
  | nil => rfl
  | cons v rest ih =>
      have hv : v.trainable = false := h v (List.mem_cons_self v rest)
      rw [assign_average_vars, hv]
      simp only [Bool.false_eq_true, if_false]
      exact ih (fun u hu => h u (List.mem_cons_of_mem v hu))

/-- Witness for C10: a singleton non-trainable list over the fresh state. -/
theorem C10_assign_no_trainable_witness :
    assign_average_vars initState [⟨1, [2], "float32", false⟩] =
      Except.ok (initState, []) :=
  C10_assign_no_trainable initState [⟨1, [2], "float32", false⟩]
    (by decide)

/-- `find?` for an id at least `n` skips a block of operations whose ids
are all below `n`. -/
theorem find?_fresh_append (l₁ l₂ : List Op) (n i : Nat)
    (h : ∀ op ∈ l₁, op.id < n) (hi : n ≤ i) :
    (l₁ ++ l₂).find? (fun op => op.id = i) =
      l₂.find? (fun op => op.id = i) := by
  induction l₁ with
  | nil => rfl
  | cons op rest ih =>
      have hop : op.id < n := h op (List.mem_cons_self _ _)
      have hne : ¬((fun op : Op => decide (op.id = i)) op = true) := by
        simp only [decide_eq_true_eq]
        omega
      have hstep := List.find?_cons_of_neg
        (p := fun op : Op => decide (op.id = i)) (rest ++ l₂) hne
      rw [List.cons_append, hstep]
      exact ih (fun o ho => h o (List.mem_cons_of_mem _ ho))

/-- `depsOf` ignores a prefix of operations whose ids are all below the id
sought. -/
theorem depsOf_skip (nid : Nat) (ctx : List Nat) (ops₁ ops₂ : List Op)
    (n i : Nat) (h : ∀ op ∈ ops₁, op.id < n) (hi : n ≤ i) :
    depsOf ⟨nid, ops₁ ++ ops₂, ctx⟩ i = depsOf ⟨nid, ops₂, ctx⟩ i := by
  simp only [depsOf]
  rw [find?_fresh_append ops₁ ops₂ n i h hi]

/-- `depsOf` walks past an operation with a different id. -/
theorem depsOf_cons_ne (nid : Nat) (ctx : List Nat) (op : Op)
    (rest : List Op) (i : Nat) (h : ¬(op.id = i)) :
    depsOf ⟨nid, op :: rest, ctx⟩ i = depsOf ⟨nid, rest, ctx⟩ i := by
  have hne : ¬((fun op : Op => decide (op.id = i)) op = true) := by
    simpa using h
  simp only [depsOf]
  rw [List.find?_cons_of_neg rest hne]

/-- `depsOf` at the head operation returns its declared dependencies. -/
theorem depsOf_cons_self (nid : Nat) (ctx deps : List Nat) (i : Nat)
    (rest : List Op) :
    depsOf ⟨nid, (⟨i, deps⟩ : Op) :: rest, ctx⟩ i = deps := by
  have hp : ((fun op : Op => decide (op.id = i)) ⟨i, deps⟩ = true) := by
    simp
  simp only [depsOf]
  rw [List.find?_cons_of_pos rest hp]
  rfl

/-- `_resource_apply_dense` produces exactly the closed-form graph. -/
theorem resource_apply_dense_shape (su : Bool) (g : Graph) :
    resource_apply_dense su g = applyShape su g := by
  cases su <;> rfl

/-- `_resource_apply_sparse` produces exactly the closed-form graph. -/
theorem resource_apply_sparse_shape (su : Bool) (g : Graph) :
    resource_apply_sparse su g = applyShape su g := by
  cases su <;> rfl

/-- `_resource_apply_sparse_duplicate_indices` produces exactly the
closed-form graph. -/
theorem resource_apply_sparse_dup_shape (su : Bool) (g : Graph) :
    resource_apply_sparse_duplicate_indices su g = applyShape su g := by
  cases su <;> rfl

/-- Any entry point producing the closed-form graph satisfies the ordering
contract. -/
theorem orderingSpec_of_shape (F : Bool → Graph → Nat × Graph)
    (hF : ∀ su g, F su g = applyShape su g) : OrderingSpec F := by
  intro su g hwf
  obtain ⟨hops, hctx⟩ := hwf
  rw [hF]
  have hskip : ∀ i, g.nextId ≤ i →
      depsOf (applyShape su g).2 i =
        depsOf ⟨g.nextId + 3,
          [⟨g.nextId, g.ctx⟩,
           ⟨g.nextId + 1, if su then g.ctx ++ [g.nextId] else g.ctx⟩,
           ⟨g.nextId + 2, g.ctx ++ [g.nextId, g.nextId + 1]⟩],
          g.ctx⟩ i := by
    intro i hi
    simp only [applyShape, List.append_assoc]
    rw [depsOf_skip _ _ g.ops _ g.nextId _ hops hi]
    rfl
  have havg : depsOf (applyShape su g).2 (g.nextId + 1) =
      (if su then g.ctx ++ [g.nextId] else g.ctx) := by
    rw [hskip _ (Nat.le_succ _),
      depsOf_cons_ne _ _ _ _ _ (by simp),
      depsOf_cons_self]
  have hgrp : depsOf (applyShape su g).2 (g.nextId + 2) =
      g.ctx ++ [g.nextId, g.nextId + 1] := by
    rw [hskip _ (by omega),
      depsOf_cons_ne _ _ _ _ _ (by simp),
      depsOf_cons_ne _ _ _ _ _ (by simp),
      depsOf_cons_self]
  refine ⟨rfl, fun hsu => ?_, fun hsu => ?_, ?_, ?_⟩
  · rw [havg, hsu]
    simp
  · rw [havg, hsu]
    simp only [if_false, Bool.false_eq_true]
    intro hmem
    exact absurd (hctx _ hmem) (by omega)
  · show g.nextId ∈ depsOf (applyShape su g).2 (applyShape su g).1
    rw [show (applyShape su g).1 = g.nextId + 2 from rfl, hgrp]
    simp
  · show g.nextId + 1 ∈ depsOf (applyShape su g).2 (applyShape su g).1
    rw [show (applyShape su g).1 = g.nextId + 2 from rfl, hgrp]
    simp

/-- C1: for each gradient-application entry point (dense, sparse, and
sparse-with-duplicate-indices), when `sequential_update = true` the
average-update operation is constructed inside a control-dependency scope
on the train-update operation (so it cannot execute before the train
update completes); when `sequential_update = false` the average-update
operation declares no ordering relative to the train update; and in both
modes the returned value is a group depending on both the train update and
the average update. -/
theorem C1_sequential_ordering :
    OrderingSpec resource_apply_dense ∧
    OrderingSpec resource_apply_sparse ∧
    OrderingSpec resource_apply_sparse_duplicate_indices :=
  ⟨orderingSpec_of_shape _ resource_apply_dense_shape,
   orderingSpec_of_shape _ resource_apply_sparse_shape,
   orderingSpec_of_shape _ resource_apply_sparse_dup_shape⟩

/-- Witness for C1: on the empty graph, the sequential dense apply makes
the average op (id 1) depend on the train op (id 0); the non-sequential
sparse apply does not. -/
theorem C1_sequential_ordering_witness :
    (0 : Nat) ∈ depsOf (resource_apply_dense true Graph.empty).2 (0 + 1) ∧
    (0 : Nat) ∉ depsOf (resource_apply_sparse false Graph.empty).2
      (0 + 1) :=
  ⟨(C1_sequential_ordering.1 true Graph.empty (by decide)).2.1 rfl,
   (C1_sequential_ordering.2.1 false Graph.empty (by decide)).2.2.1 rfl⟩

/-- C2: construction fails with an error and no object is constructed when
the base-optimizer argument is not an optimizer instance (a `TypeError`),
or is a string absent from the registry (the registry's lookup error), or
when `sequential_update` is any non-boolean value such as the integer `1`
(a `TypeError`); for every valid optimizer instance and boolean flag,
construction succeeds. -/
theorem C2_construct_type_errors :
    (∀ (reg : Registry) (v : PyVal) (su : PyVal),
      averaged_init reg (OptimizerArg.other v) su =
        Except.error (ConstructError.typeError
          "optimizer is not an object of tf.keras.optimizers.Optimizer")) ∧
    (∀ (reg : Registry) (s : String) (su : PyVal),
      List.lookup s reg = none →
      averaged_init reg (OptimizerArg.name s) su =
        Except.error (ConstructError.registryLookupError s)) ∧
    (∀ (reg : Registry) (O : BaseOptimizer) (su : PyVal),
      (∀ b : Bool, su ≠ PyVal.pybool b) →
      averaged_init reg (OptimizerArg.inst O) su =
        Except.error (ConstructError.typeError
          "sequential_update must be of bool type")) ∧
    (∀ (reg : Registry) (O : BaseOptimizer) (b : Bool),
      averaged_init reg (OptimizerArg.inst O) (PyVal.pybool b) =
        Except.ok ⟨O, b⟩) := by
  refine ⟨fun reg v su => rfl, fun reg s su h => ?_, fun reg O su h => ?_,
    fun reg O b => rfl⟩
  · rw [averaged_init, keras_optimizers_get, h]
    rfl
  · cases su with
    | pybool b => exact absurd rfl (h b)
    | pyint n => rfl
    | pystr s => rfl
    | pynone => rfl

/-- Witness for C2: an unknown registry name, the non-boolean flag `1`, and
a valid `(instance, bool)` pair. -/
theorem C2_construct_type_errors_witness :
    (averaged_init [] (OptimizerArg.name "SGD") (PyVal.pybool true) =
      Except.error (ConstructError.registryLookupError "SGD")) ∧
    (averaged_init [] (OptimizerArg.inst ⟨⟨"SGD", []⟩⟩) (PyVal.pyint 1) =
      Except.error (ConstructError.typeError
        "sequential_update must be of bool type")) :=
  ⟨C2_construct_type_errors.2.1 [] "SGD" (PyVal.pybool true) rfl,
   C2_construct_type_errors.2.2.1 [] ⟨⟨"SGD", []⟩⟩ (PyVal.pyint 1)
     (by decide)⟩

/-- Unfolding equation for `dget` on the empty dict. -/
theorem dget_nil (k : String) : dget [] k = none := rfl

/-- Unfolding equation for `dget` on a nonempty dict. -/
theorem dget_cons (k' : String) (v : CVal) (rest : Dict) (k : String) :
    dget ((k', v) :: rest) k =
      match dget rest k with
      | some v' => some v'
      | none => if k' = k then some v else none := rfl

/-- Key lookup always fails on a list filtered to remove that key. -/
theorem dget_filter_self (d : Dict) (k : String) :
    dget (List.filter (fun p : String × CVal => ¬(p.1 = k)) d) k = none := by
  induction d with
  | nil => rfl
  | cons p rest ih =>
      obtain ⟨k', v⟩ := p
      by_cases hp : k' = k
      · have hf : List.filter (fun p : String × CVal => ¬(p.1 = k))
            ((k', v) :: rest)
            = List.filter (fun p : String × CVal => ¬(p.1 = k)) rest := by
          simp [List.filter_cons, hp]
        rw [hf]; exact ih
      · have hf : List.filter (fun p : String × CVal => ¬(p.1 = k))
            ((k', v) :: rest)
            = (k', v) ::
              List.filter (fun p : String × CVal => ¬(p.1 = k)) rest := by
          simp [List.filter_cons, hp]
        rw [hf, dget_cons, ih]
        simp [hp]

/-- C9: `from_config` mutates the caller's configuration mapping: whenever
it returns successfully, the mapping it leaves behind is the caller's
mapping with every `optimizer` binding removed, so the caller's mapping no
longer contains the nested base-optimizer configuration. -/
theorem C9_from_config_pops_optimizer (d : Dict) (w : Wrapper) (d' : Dict)
    (h : from_config d = Except.ok (w, d')) :
    d' = List.filter (fun p : String × CVal => ¬(p.1 = "optimizer")) d ∧
    dget d' "optimizer" = none := by
  simp only [from_config] at h
  split at h
  · exact Except.noConfusion h
  · rename_i v rest hpop
    have hrest : rest =
        List.filter (fun p : String × CVal => ¬(p.1 = "optimizer")) d := by
      rw [dpop] at hpop
      split at hpop
      · simp only [Option.some.injEq, Prod.mk.injEq] at hpop
        exact hpop.2.symm
      · exact Option.noConfusion hpop
    have hd' : d' = rest := by
      split at h
      · split at h
        · simp only [Except.ok.injEq, Prod.mk.injEq] at h
          exact h.2.symm
        · exact Except.noConfusion h
        · simp only [Except.ok.injEq, Prod.mk.injEq] at h
          exact h.2.symm
      · exact Except.noConfusion h
    subst hd'
    rw [hrest]
    exact ⟨rfl, dget_filter_self d "optimizer"⟩

/-- Lookup in an appended dict: the right-hand (later, overriding) part
wins when it binds the key. -/
theorem dget_append (l₁ l₂ : Dict) (k : String) :
    dget (l₁ ++ l₂) k =
      match dget l₂ k with
      | some v => some v
      | none => dget l₁ k := by
  induction l₁ with
  | nil =>
      cases h₂ : dget l₂ k
      · simp [h₂, dget_nil]
      · simp [h₂]
  | cons p rest ih =>
      obtain ⟨k', v⟩ := p
      rw [List.cons_append, dget_cons, ih, dget_cons]
      cases h₂ : dget l₂ k
      · rfl
      · rfl

/-- Evaluation of `from_config` when the mapping binds `optimizer` to an
optimizer configuration and `sequential_update` to a boolean. -/
theorem from_config_eval (d : Dict) (c : OptConfig) (rest : Dict) (b : Bool)
    (hpop : dpop d "optimizer" = some (CVal.ccfg c, rest))
    (hseq : dget rest "sequential_update" = some (CVal.cbool b)) :
    from_config d = Except.ok (⟨keras_deserialize c, b⟩, rest) := by
  simp only [from_config, hpop, hseq]

/-- C4: round-tripping a wrapper's configuration through
`from_config(get_config())` reconstructs a wrapper whose nested
base-optimizer configuration and `sequential_update` flag equal the
original's; the serialized mapping binds `optimizer` to the nested
serialized base-optimizer configuration and `sequential_update` to the
boolean, and preserves every other binding of the base wrapper-class
configuration it was merged with. -/
theorem C4_config_roundtrip (w : Wrapper) (base_config : Dict) :
    (∃ w' d', from_config (get_config w base_config) = Except.ok (w', d') ∧
      keras_serialize w'.optimizer = keras_serialize w.optimizer ∧
      w'.sequential_update = w.sequential_update) ∧
    dget (get_config w base_config) "optimizer"
      = some (CVal.ccfg (keras_serialize w.optimizer)) ∧
    dget (get_config w base_config) "sequential_update"
      = some (CVal.cbool w.sequential_update) ∧
    (∀ k, ¬(k = "optimizer") → ¬(k = "sequential_update") →
      dget (get_config w base_config) k = dget base_config k) := by
  have htail_opt :
      dget [("optimizer", CVal.ccfg (keras_serialize w.optimizer)),
            ("sequential_update", CVal.cbool w.sequential_update)]
        "optimizer" = some (CVal.ccfg (keras_serialize w.optimizer)) := rfl
  have htail_seq :
      dget [("optimizer", CVal.ccfg (keras_serialize w.optimizer)),
            ("sequential_update", CVal.cbool w.sequential_update)]
        "sequential_update" = some (CVal.cbool w.sequential_update) := rfl
  have hopt : dget (get_config w base_config) "optimizer"
      = some (CVal.ccfg (keras_serialize w.optimizer)) := by
    rw [get_config, dget_append, htail_opt]
  have hseq : dget (get_config w base_config) "sequential_update"
      = some (CVal.cbool w.sequential_update) := by
    rw [get_config, dget_append, htail_seq]
  refine ⟨?_, hopt, hseq, fun k hk1 hk2 => ?_⟩
  · have hpop : dpop (get_config w base_config) "optimizer" =
        some (CVal.ccfg (keras_serialize w.optimizer),
          List.filter (fun p : String × CVal => ¬(p.1 = "optimizer"))
            (get_config w base_config)) := by
      rw [dpop, hopt]
    have hfilter :
        List.filter (fun p : String × CVal => ¬(p.1 = "optimizer"))
          (get_config w base_config)
        = List.filter (fun p : String × CVal => ¬(p.1 = "optimizer"))
            base_config ++
          [("sequential_update", CVal.cbool w.sequential_update)] := by
      rw [get_config, List.filter_append]
      simp
    have hseqrest :
        dget (List.filter (fun p : String × CVal => ¬(p.1 = "optimizer"))
          (get_config w base_config)) "sequential_update"
        = some (CVal.cbool w.sequential_update) := by
      rw [hfilter, dget_append]
      rfl
    exact ⟨⟨keras_deserialize (keras_serialize w.optimizer),
        w.sequential_update⟩, _,
      from_config_eval _ _ _ _ hpop hseqrest, rfl, rfl⟩
  · rw [get_config, dget_append]
    have h1 : ¬("optimizer" = k) := fun hh => hk1 hh.symm
    have h2 : ¬("sequential_update" = k) := fun hh => hk2 hh.symm
    simp [dget_cons, dget_nil, h1, h2]

/-- Witness for C4: the merged-fields conjunct at a concrete wrapper, base
configuration and key. -/
theorem C4_config_roundtrip_witness :
    dget (get_config ⟨⟨⟨"SGD", [("lr", 1)]⟩⟩, false⟩
        [("name", CVal.cstr "avg")]) "name"
      = dget [("name", CVal.cstr "avg")] "name" :=
  (C4_config_roundtrip ⟨⟨⟨"SGD", [("lr", 1)]⟩⟩, false⟩
      [("name", CVal.cstr "avg")]).2.2.2 "name"
    (by decide) (by decide)

/-- Witness for C9: a concrete successful `from_config` call, after which
the caller's mapping has lost its `optimizer` binding. -/
theorem C9_from_config_pops_optimizer_witness :
    ([("name", CVal.cstr "avg")] :
        List (String × CVal)) =
      List.filter (fun p : String × CVal => ¬(p.1 = "optimizer"))
        [("name", CVal.cstr "avg"),
         ("optimizer", CVal.ccfg ⟨"SGD", [("lr", 1)]⟩)] ∧
    dget [("name", CVal.cstr "avg")] "optimizer" = none :=
  C9_from_config_pops_optimizer
    [("name", CVal.cstr "avg"),
     ("optimizer", CVal.ccfg ⟨"SGD", [("lr", 1)]⟩)]
    ⟨⟨⟨"SGD", [("lr", 1)]⟩⟩, true⟩
    [("name", CVal.cstr "avg")]
    (by rfl)

/-- `add_slot` never touches the delegation log. -/
theorem add_slot_log (st : OptState) (var : VarInfo) (n : String) :
    (add_slot st var n).baseCreateSlotsLog = st.baseCreateSlotsLog := by
  simp only [add_slot]
  split <;> rfl

/-- Folding `add_slot` over a variable list never touches the log. -/
theorem foldl_add_slot_log (V : List VarInfo) (st : OptState) :
    (V.foldl (fun st var => add_slot st var "average")
      st).baseCreateSlotsLog = st.baseCreateSlotsLog := by
  induction V generalizing st with
  | nil => rfl
  | cons v rest ih => rw [List.foldl_cons, ih, add_slot_log]

/-- `add_slot` is a no-op when the slot already exists. -/
theorem add_slot_of_some (st : OptState) (var : VarInfo) (n : String)
    (h : (get_slot st var n).isSome = true) : add_slot st var n = st := by
  obtain ⟨sl, hsl⟩ := Option.isSome_iff_exists.mp h
  simp only [add_slot, hsl]

/-- `add_slot` appends a fresh zero-initialized slot with the variable's
shape and dtype when none exists. -/
theorem add_slot_of_none (st : OptState) (var : VarInfo) (n : String)
    (h : get_slot st var n = none) :
    add_slot st var n =
      { st with
        slots := st.slots ++ [⟨var.id, n, var.shape, var.dtype, 0⟩] } := by
  simp only [add_slot, h]

/-- Folding `add_slot` over a list of already-slotted variables changes
nothing at all. -/
theorem foldl_add_slot_of_some (V : List VarInfo) (st : OptState)
    (h : ∀ v ∈ V, (get_slot st v "average").isSome = true) :
    V.foldl (fun st var => add_slot st var "average") st = st := by
  induction V generalizing st with
  | nil => rfl
  | cons v rest ih =>
      rw [List.foldl_cons,
        add_slot_of_some st v _ (h v (List.mem_cons_self _ _))]
      exact ih st (fun u hu => h u (List.mem_cons_of_mem _ hu))

/-- Folding `add_slot` only ever appends average slots derived from the
processed variables. -/
theorem foldl_add_slot_slots (V : List VarInfo) (st : OptState) :
    ∃ extra : List Slot,
      (V.foldl (fun st var => add_slot st var "average") st).slots
        = st.slots ++ extra ∧
      ∀ sl ∈ extra, ∃ u ∈ V,
        sl = ⟨u.id, "average", u.shape, u.dtype, 0⟩ := by
  induction V generalizing st with
  | nil => exact ⟨[], by simp, by simp⟩
  | cons v rest ih =>
      rw [List.foldl_cons]
      cases hg : get_slot st v "average" with
      | some sl =>
          rw [add_slot_of_some st v _ (by simp [hg])]
          obtain ⟨extra, he, hall⟩ := ih st
          refine ⟨extra, he, fun sl₂ hsl₂ => ?_⟩
          obtain ⟨u, hu, hequ⟩ := hall sl₂ hsl₂
          exact ⟨u, List.mem_cons_of_mem _ hu, hequ⟩
      | none =>
          rw [add_slot_of_none st v _ hg]
          obtain ⟨extra, he, hall⟩ := ih
            { st with
              slots := st.slots ++ [⟨v.id, "average", v.shape, v.dtype, 0⟩] }
          refine ⟨⟨v.id, "average", v.shape, v.dtype, 0⟩ :: extra, ?_, ?_⟩
          · rw [he]
            simp
          · intro sl₂ hsl₂
            rcases List.mem_cons.mp hsl₂ with rfl | h'
            · exact ⟨v, List.mem_cons_self _ _, rfl⟩
            · obtain ⟨u, hu, hequ⟩ := hall sl₂ h'
              exact ⟨u, List.mem_cons_of_mem _ hu, hequ⟩

/-- Absence of a slot means no entry of the slot table matches its key. -/
theorem get_slot_none_iff (s : OptState) (v : VarInfo) (n : String) :
    get_slot s v n = none ↔
      ∀ sl ∈ s.slots, ¬(sl.varId = v.id ∧ sl.slotName = n) := by
  simp [get_slot, List.find?_eq_none]

/-- Filtering the slot table for an absent slot key yields nothing. -/
theorem filter_slots_of_none (s : OptState) (v : VarInfo)
    (h : get_slot s v "average" = none) :
    s.slots.filter
      (fun sl => sl.varId = v.id ∧ sl.slotName = "average") = [] := by
  rw [List.filter_eq_nil_iff]
  intro sl hsl
  have := (get_slot_none_iff s v "average").mp h sl hsl
  simpa using this

/-- After folding `add_slot` over fresh variables with distinct ids, each
variable owns exactly one average slot, zero-initialized with its shape
and dtype. -/
theorem foldl_add_slot_filter (V : List VarInfo) (st : OptState)
    (h1 : ∀ v ∈ V, get_slot st v "average" = none)
    (h2 : (V.map VarInfo.id).Nodup) :
    ∀ v ∈ V,
      (V.foldl (fun st var => add_slot st var "average") st).slots.filter
        (fun sl => sl.varId = v.id ∧ sl.slotName = "average")
        = [⟨v.id, "average", v.shape, v.dtype, 0⟩] := by
  induction V generalizing st with
  | nil => intro v hv; cases hv
  | cons w rest ih =>
      have hwnone : get_slot st w "average" = none :=
        h1 w (List.mem_cons_self _ _)
      have hhead : w.id ∉ rest.map VarInfo.id :=
        (List.nodup_cons.mp (by simpa using h2)).1
      have hrestnodup : (rest.map VarInfo.id).Nodup :=
        (List.nodup_cons.mp (by simpa using h2)).2
      intro v hv
      rw [List.foldl_cons, add_slot_of_none st w _ hwnone]
      rcases List.mem_cons.mp hv with rfl | hv'
      · obtain ⟨extra, he, hall⟩ := foldl_add_slot_slots rest
          { st with
            slots := st.slots ++ [⟨v.id, "average", v.shape, v.dtype, 0⟩] }
        rw [he]
        simp only [List.filter_append]
        rw [filter_slots_of_none st v hwnone]
        have hextra : extra.filter
            (fun sl => sl.varId = v.id ∧ sl.slotName = "average") = [] := by
          rw [List.filter_eq_nil_iff]
          intro sl hsl
          obtain ⟨u, hu, rfl⟩ := hall sl hsl
          simp only [decide_eq_true_eq, not_and]
          intro hid _
          exact absurd (hid ▸ List.mem_map_of_mem VarInfo.id hu) hhead
        rw [hextra]
        simp
      · have h1' : ∀ u ∈ rest,
            get_slot
              { st with
                slots := st.slots ++
                  [⟨w.id, "average", w.shape, w.dtype, 0⟩] }
              u "average" = none := by
          intro u hu
          rw [get_slot_none_iff]
          intro sl hsl
          rcases List.mem_append.mp hsl with hin | hin
          · exact (get_slot_none_iff st u "average").mp
              (h1 u (List.mem_cons_of_mem _ hu)) sl hin
          · rcases List.mem_singleton.mp hin with rfl
            simp only [not_and]
            intro hid _
            exact absurd (hid ▸ List.mem_map_of_mem VarInfo.id hu) hhead
        exact ih _ h1' hrestnodup v hv'

/-- C5: `_create_slots(V)` delegates slot creation to the base optimizer
for the same list `V` (the call is logged), gives every variable of a
fresh, duplicate-free list exactly one `average` slot whose shape and
dtype match the variable, and a second invocation over already-slotted
variables leaves the entire slot table unchanged — no duplicate slots and
no reset of slot contents written in between. -/
theorem C5_create_slots (s : OptState) (V : List VarInfo)
    (h1 : ∀ v ∈ V, get_slot s v "average" = none)
    (h2 : (V.map VarInfo.id).Nodup) :
    (create_slots s V).baseCreateSlotsLog = V :: s.baseCreateSlotsLog ∧
    (∀ v ∈ V, (create_slots s V).slots.filter
        (fun sl => sl.varId = v.id ∧ sl.slotName = "average")
        = [⟨v.id, "average", v.shape, v.dtype, 0⟩]) ∧
    (∀ s₂ : OptState, (∀ v ∈ V, (get_slot s₂ v "average").isSome = true) →
      (create_slots s₂ V).slots = s₂.slots) := by
  refine ⟨?_, ?_, ?_⟩
  · rw [create_slots, foldl_add_slot_log]
    rfl
  · intro v hv
    rw [create_slots]
    exact foldl_add_slot_filter V (base_create_slots s V)
      (fun u hu => h1 u hu) h2 v hv
  · intro s₂ hs₂
    rw [create_slots, foldl_add_slot_of_some V (base_create_slots s₂ V)
      (fun u hu => hs₂ u hu)]
    rfl

/-- Witness for C5: one fresh variable gets its single average slot, and a
repeated `_create_slots` call leaves the slot table unchanged. -/
theorem C5_create_slots_witness :
    (create_slots initState [⟨1, [2], "float32", true⟩]).slots.filter
        (fun sl => sl.varId = 1 ∧ sl.slotName = "average")
      = [⟨1, "average", [2], "float32", 0⟩] ∧
    (create_slots (create_slots initState [⟨1, [2], "float32", true⟩])
        [⟨1, [2], "float32", true⟩]).slots
      = (create_slots initState [⟨1, [2], "float32", true⟩]).slots :=
  ⟨(C5_create_slots initState [⟨1, [2], "float32", true⟩] (by decide)
      (by decide)).2.1 ⟨1, [2], "float32", true⟩ (by decide),
   (C5_create_slots initState [⟨1, [2], "float32", true⟩] (by decide)
      (by decide)).2.2
     (create_slots initState [⟨1, [2], "float32", true⟩]) (by decide)⟩

/-- Association lookup at the head key. -/
theorem lookup_cons_self (a : Nat) (b : Int) (l : List (Nat × Int)) :
    List.lookup a ((a, b) :: l) = some b := by
  rw [List.lookup, beq_self_eq_true]

/-- Association lookup walks past a different head key. -/
theorem lookup_cons_ne (a : Nat) (b : Int) (l : List (Nat × Int)) (j : Nat)
    (h : ¬(j = a)) : List.lookup j ((a, b) :: l) = List.lookup j l := by
  rw [List.lookup, beq_false_of_ne h]

/-- Assigning a variable makes its value read back. -/
theorem readVar_writeVar_self (s : OptState) (i : Nat) (x : Int) :
    readVar (writeVar s i x) i = x := by
  simp only [readVar, writeVar]
  rw [lookup_cons_self]
  rfl

/-- Lookup of a different key ignores entries removed by `writeVar`. -/
theorem lookup_filter_ne (l : List (Nat × Int)) (i j : Nat) (h : ¬(j = i)) :
    List.lookup j (l.filter (fun p => ¬(p.1 = i))) = List.lookup j l := by
  induction l with
  | nil => rfl
  | cons p rest ih =>
      obtain ⟨a, b⟩ := p
      by_cases hp : a = i
      · subst hp
        have hfc : List.filter (fun p : Nat × Int => ¬(p.1 = a))
              ((a, b) :: rest)
            = List.filter (fun p : Nat × Int => ¬(p.1 = a)) rest := by
          rw [List.filter_cons]
          simp
        rw [hfc, ih, lookup_cons_ne a b rest j h]
      · have hfc : List.filter (fun p : Nat × Int => ¬(p.1 = i))
              ((a, b) :: rest)
            = (a, b) ::
              List.filter (fun p : Nat × Int => ¬(p.1 = i)) rest := by
          rw [List.filter_cons]
          simp [hp]
        by_cases hj : j = a
        · subst hj
          rw [hfc, lookup_cons_self, lookup_cons_self]
        · rw [hfc, lookup_cons_ne a b _ j hj, lookup_cons_ne a b rest j hj,
            ih]

/-- Assigning one variable leaves every other variable's value intact. -/
theorem readVar_writeVar_ne (s : OptState) (i j : Nat) (x : Int)
    (h : ¬(j = i)) : readVar (writeVar s i x) j = readVar s j := by
  simp only [readVar, writeVar]
  rw [lookup_cons_ne i x _ j h, lookup_filter_ne s.varValues i j h]

/-- `writeVar` does not touch the slot table. -/
theorem get_slot_writeVar (s : OptState) (i : Nat) (x : Int) (v : VarInfo)
    (n : String) : get_slot (writeVar s i x) v n = get_slot s v n := rfl

/-- `get_slot` depends on the variable only through its id. -/
theorem get_slot_congr_id (s : OptState) (u v : VarInfo) (n : String)
    (h : u.id = v.id) : get_slot s u n = get_slot s v n := by
  simp only [get_slot, h]

/-- C6: `assign_average_vars` on any variable list whose trainable members
all have average slots succeeds, overwrites each trainable variable with
the exact current contents of its average slot, silently skips the
non-trainable ones (and every variable not in the list), returns the group
of assignment operations for exactly the trainable variables, and leaves
the slot table unchanged. -/
theorem C6_assign_average_vars (s : OptState) (V : List VarInfo)
    (h : ∀ v ∈ V, v.trainable = true →
      (get_slot s v "average").isSome = true) :
    ∃ s' : OptState,
      assign_average_vars s V =
        Except.ok (s', (V.filter (fun v => v.trainable)).map VarInfo.id) ∧
      (∀ v ∈ V, v.trainable = true → ∀ sl : Slot,
        get_slot s v "average" = some sl → readVar s' v.id = sl.value) ∧
      (∀ i : Nat, (∀ v ∈ V, v.trainable = true → ¬(v.id = i)) →
        readVar s' i = readVar s i) ∧
      s'.slots = s.slots := by
  induction V generalizing s with
  | nil => exact ⟨s, rfl, by simp, fun i _ => rfl, rfl⟩
  | cons v rest ih =>
      by_cases hv : v.trainable = true
      · obtain ⟨sl, hsl⟩ := Option.isSome_iff_exists.mp
          (h v (List.mem_cons_self _ _) hv)
        obtain ⟨s', hok, htrain, hother, hslots⟩ :=
          ih (writeVar s v.id sl.value)
            (fun u hu hut => by
              rw [get_slot_writeVar]
              exact h u (List.mem_cons_of_mem _ hu) hut)
        refine ⟨s', ?_, ?_, ?_, ?_⟩
        · rw [assign_average_vars]
          simp only [hv, if_true, hsl, hok, List.filter_cons, List.map_cons]
        · intro u hu hut slu hslu
          rcases List.mem_cons.mp hu with rfl | hu'
          · rw [hsl] at hslu
            cases hslu
            by_cases hdup : ∀ u' ∈ rest, u'.trainable = true →
                ¬(u'.id = u.id)
            · rw [hother u.id hdup, readVar_writeVar_self]
            · push_neg at hdup
              obtain ⟨u', hu', hut', hid⟩ := hdup
              have hslu' : get_slot (writeVar s u.id sl.value) u' "average"
                  = some sl := by
                rw [get_slot_writeVar, get_slot_congr_id s u' u _ hid, hsl]
              have hres := htrain u' hu' hut' sl hslu'
              rw [hid] at hres
              exact hres
          · exact htrain u hu' hut slu
              (by rw [get_slot_writeVar]; exact hslu)
        · intro i hi
          have hvi : ¬(v.id = i) := hi v (List.mem_cons_self _ _) hv
          rw [hother i
            (fun u hu hut => hi u (List.mem_cons_of_mem _ hu) hut)]
          exact readVar_writeVar_ne s v.id i sl.value
            (fun hh => hvi hh.symm)
        · rw [hslots]
          rfl
      · have hvf : v.trainable = false := by
          simpa using hv
        obtain ⟨s', hok, htrain, hother, hslots⟩ :=
          ih s (fun u hu hut => h u (List.mem_cons_of_mem _ hu) hut)
        refine ⟨s', ?_, ?_, ?_, hslots⟩
        · rw [assign_average_vars]
          simp only [hvf, Bool.false_eq_true, if_false, hok,
            List.filter_cons]
        · intro u hu hut slu hslu
          rcases List.mem_cons.mp hu with rfl | hu'
          · rw [hut] at hvf
            exact absurd hvf (by simp)
          · exact htrain u hu' hut slu hslu
        · intro i hi
          exact hother i (fun u hu hut => hi u (List.mem_cons_of_mem _ hu)
            hut)

/-- Witness for C6: a trainable and a non-trainable variable; the
trainable one is overwritten from its slot, the other is skipped. -/
theorem C6_assign_average_vars_witness :
    readVar
      ((assign_average_vars
        (⟨[⟨1, "average", [], "float32", 9⟩], [(1, 100), (2, 200)],
          0, 0, false, []⟩ : OptState)
        [⟨1, [], "float32", true⟩, ⟨2, [], "float32", false⟩]).toOption.map
          Prod.fst |>.getD initState) 1 = 9 := by
  have happ := C6_assign_average_vars
    (⟨[⟨1, "average", [], "float32", 9⟩], [(1, 100), (2, 200)],
      0, 0, false, []⟩ : OptState)
    [⟨1, [], "float32", true⟩, ⟨2, [], "float32", false⟩]
    (by decide)
  obtain ⟨s', hok, htrain, hother, hslots⟩ := happ
  have h1 := htrain ⟨1, [], "float32", true⟩ (by decide) rfl
    ⟨1, "average", [], "float32", 9⟩ (by decide)
  rw [hok]
  simpa using h1

end AverageWrapper
